import Mathlib

/-!
Verification development for the arch-lint scanner (`main.go`).

The program walks a workspace, parses each recognized source file into a
lightweight summary (`fileInfo`), builds a file-to-imported-modules graph, and
runs four analyzers over every summary, emitting `Finding` records.

Modelling conventions:
* Go strings are Lean `String`s; machine integers that only ever hold
  non-negative counts (line numbers, export counts) are `Nat`.
* The compiled regular expressions of the scanner are values of Go's external
  `regexp` package.  Each is modelled as a matcher function; the matchers are
  gathered in the `Patterns` record and the analyzers are parametrized by it,
  exactly as the Go code closes over the global regex values.  The Go-language
  matchers (the only ones exercised by the repository's own `.go` test data)
  are additionally implemented concretely (`reGoImportM`, `reGoExportM`, ...)
  as direct transcriptions of the regex semantics.
* The SDK `ResponseBuilder` only accumulates findings; each `check*` function
  is modelled as returning the list of findings it emits, in emission order.
* `filepath.WalkDir` (Go standard library) is modelled by `scanWalk`/`walkL`
  over an explicit directory tree; `context.Context` cancellation is modelled
  by a function from the callback invocation count to an optional error.
* Go `map` iteration order is unspecified; maps are modelled as association
  lists, so every theorem quantified over a graph covers every iteration order.
-/

/-! ## Character and string helpers (models of Go regexp / strings primitives) -/

/-- Whitespace class of RE2's Perl character class (tab, newline, form feed,
carriage return, space). -/
def isSpaceRE (c : Char) : Bool :=
  c == ' ' || c == '\t' || c == '\n' || c == '\x0c' || c == '\r'

/-- Word-character class of RE2 (ASCII letters, digits, underscore). -/
def isWordChar (c : Char) : Bool :=
  c.isAlpha || c.isDigit || c == '_'

/-- ASCII whitespace trimmed by Go's strings.TrimSpace (the scanner's inputs
are ASCII source lines, where TrimSpace trims exactly this set). -/
def isGoSpace (c : Char) : Bool :=
  c == ' ' || c == '\t' || c == '\n' || c == '\x0b' || c == '\x0c' || c == '\r'

/-- Decides whether the first list is a leading segment of the second. -/
def pfx : List Char → List Char → Bool
  | [], _ => true
  | _ :: _, [] => false
  | a :: as, b :: bs => a == b && pfx as bs

/-- Model of Go strings.HasSuffix. -/
def hasSuffixStr (s suffix : String) : Bool :=
  pfx suffix.data.reverse s.data.reverse

/-- Holds when some suffix of the character list satisfies the predicate;
this is the unanchored-search part of regexp MatchString. -/
def strHas (p : List Char → Bool) : List Char → Bool
  | [] => p []
  | c :: cs => p (c :: cs) || strHas p cs

/-- Case folding applied for the regexes carrying the (?i) flag. -/
def lowerStr (s : String) : List Char :=
  s.data.map Char.toLower

/-- Model of Go strings.TrimSpace on the scanner's ASCII inputs. -/
def trimStr (s : String) : String :=
  String.mk (((s.data.dropWhile isGoSpace).reverse.dropWhile isGoSpace).reverse)

/-! ## Concrete Go-language matchers (transcribed from the regex literals) -/

/-- Core of the pattern for line imports in Go sources: optional leading
whitespace, a double quote, one or more non-quote characters (the captured
module token), and a closing double quote. -/
def goImportCore (l : List Char) : Option (List Char) :=
  match l.dropWhile isSpaceRE with
  | '"' :: rest =>
      let inner := rest.takeWhile (fun c => !(c == '"'))
      match rest.dropWhile (fun c => !(c == '"')) with
      | '"' :: _ => if inner.isEmpty then none else some inner
      | _ => none
  | _ => none

/-- Model of FindStringSubmatch for the Go import pattern, returning the
captured module token when the line matches. -/
def reGoImportM (line : String) : Option String :=
  (goImportCore line.data).map String.mk

/-- Model of MatchString for the Go export pattern: one of the declaration
keywords at the start of the line, at least one whitespace character, then an
ASCII uppercase letter. -/
def reGoExportM (line : String) : Bool :=
  [ "func", "type", "var", "const" ].any (fun kw =>
    pfx kw.data line.data &&
    (let r := line.data.drop kw.data.length
     (match r with
      | c :: _ => isSpaceRE c
      | [] => false) &&
     (match r.dropWhile isSpaceRE with
      | c :: _ => c.isUpper
      | [] => false)))

/-- Containment of any of a list of literal fragments, the shape of the
case-insensitive crypto and route patterns whose alternatives are all plain
string literals. -/
def containsAnyLit (lits : List String) (l : List Char) : Bool :=
  strHas (fun t => lits.any (fun lit => pfx lit.data t)) l

/-- Model of the Go crypto pattern: case-insensitive containment of any of its
literal alternatives. -/
def reCryptoGoM (line : String) : Bool :=
  containsAnyLit
    [ "crypto/", "golang.org/x/crypto", "bcrypt", "argon2", "hmac.new",
      "cipher.", "hash." ]
    (lowerStr line)

/-- After an alternation keyword, optional whitespace then an opening
parenthesis. -/
def parenAfter (l : List Char) : Bool :=
  match l.dropWhile isSpaceRE with
  | '(' :: _ => true
  | _ => false

/-- First character is whitespace. -/
def wsAt (l : List Char) : Bool :=
  match l with
  | c :: _ => isSpaceRE c
  | [] => false

/-- Search through a run of word characters for an occurrence of one of the
keywords followed (after optional whitespace) by an opening parenthesis. -/
def wordSkipParen (kws : List (List Char)) : List Char → Bool
  | [] => false
  | c :: cs =>
      kws.any (fun kw => pfx kw (c :: cs) && parenAfter ((c :: cs).drop kw.length)) ||
      (isWordChar c && wordSkipParen kws cs)

/-- Search through a run of word characters for an occurrence of one of the
keywords followed by further word characters, optional whitespace and an
opening parenthesis. -/
def wordSkipWordsParen (kws : List (List Char)) : List Char → Bool
  | [] => false
  | c :: cs =>
      kws.any (fun kw =>
        pfx kw (c :: cs) &&
        parenAfter (((c :: cs).drop kw.length).dropWhile isWordChar)) ||
      (isWordChar c && wordSkipWordsParen kws cs)

/-- Search through a run of word characters for an occurrence of one of the
keywords (no tail constraint). -/
def wordSkipKw (kws : List (List Char)) : List Char → Bool
  | [] => false
  | c :: cs =>
      kws.any (fun kw => pfx kw (c :: cs)) ||
      (isWordChar c && wordSkipKw kws cs)

/-- Model of the Go auth pattern: somewhere in the (case-folded) line, the
keyword func, whitespace, a run of word characters ending in one of the auth
naming conventions, then optional whitespace and an opening parenthesis. -/
def reAuthGoM (line : String) : Bool :=
  strHas
    (fun t =>
      pfx "func".data t &&
      (let r := t.drop 4
       wsAt r &&
       wordSkipParen
         [ "auth".data, "login".data, "verify".data, "validatetoken".data,
           "validatejwt".data, "validatepassword".data ]
         (r.dropWhile isSpaceRE)))
    (lowerStr line)

/-- Model of the business-logic pattern: a function declaration keyword,
whitespace, then a function name containing one of the business verbs,
followed by optional word characters, whitespace and an opening parenthesis. -/
def reBizLogicM (line : String) : Bool :=
  strHas
    (fun t =>
      [ "func", "def", "function" ].any (fun kw0 =>
        pfx kw0.data t &&
        (let r := t.drop kw0.data.length
         wsAt r &&
         wordSkipWordsParen
           [ "handle".data, "process".data, "create".data, "update".data,
             "delete".data, "get".data, "list".data, "fetch".data,
             "save".data, "submit".data, "calculate".data, "compute".data ]
           (r.dropWhile isSpaceRE))))
    (lowerStr line)

/-- Model of the data-access pattern: a dot followed by a query-method name,
optional whitespace and an opening parenthesis, or a raw SQL keyword followed
by a whitespace character. -/
def reDBAccessM (line : String) : Bool :=
  strHas
    (fun t =>
      (match t with
       | '.' :: r =>
           [ "query", "exec", "execute", "find", "create", "save", "delete",
             "remove", "insert", "update" ].any (fun kw =>
             pfx kw.data r && parenAfter (r.drop kw.data.length))
       | _ => false) ||
      [ "select", "insert", "update", "delete" ].any (fun kw =>
        pfx kw.data t && wsAt (t.drop kw.data.length)))
    (lowerStr line)

/-- Model of the HTTP route pattern: case-insensitive containment of any of
its literal alternatives. -/
def reHTTPRouteM (line : String) : Bool :=
  containsAnyLit
    [ "app.get", "app.post", "app.put", "app.delete", "app.patch",
      "http.handlefunc", "router.", "@app.route" ]
    (lowerStr line)

/-- Occurrence of a whitespace character directly followed by the keyword of
a clause, anywhere in the list (used for the middle of the SQL statement
patterns, whose dot-plus can absorb arbitrary characters before it). -/
def wsKwSearch (kw : List Char) : List Char → Bool
  | [] => false
  | c :: cs => (isSpaceRE c && pfx kw cs) || wsKwSearch kw cs

/-- One SQL statement shape of the missing-abstraction pattern with a gap:
first keyword, at least one whitespace, at least one arbitrary character,
at least one whitespace, second keyword. -/
def sqlGapShape (a b : String) (t : List Char) : Bool :=
  pfx a.data t &&
  (let r := t.drop a.data.length
   wsAt r &&
   (match r with
    | _ :: r1 =>
        (match r1 with
         | _ :: r2 => wsKwSearch b.data r2
         | [] => false)
    | [] => false))

/-- One SQL statement shape of the missing-abstraction pattern without a gap:
first keyword, at least one whitespace, second keyword. -/
def sqlTightShape (a b : String) (t : List Char) : Bool :=
  pfx a.data t &&
  (let r := t.drop a.data.length
   wsAt r && pfx b.data (r.dropWhile isSpaceRE))

/-- Model of the missing-abstraction data-access pattern: a raw SQL statement
or a db query/execute call followed by an opening parenthesis. -/
def reSQLInHandlerM (line : String) : Bool :=
  strHas
    (fun t =>
      sqlGapShape "select" "from" t ||
      sqlTightShape "insert" "into" t ||
      sqlGapShape "update" "set" t ||
      sqlTightShape "delete" "from" t ||
      (pfx "db.".data t &&
       [ "query", "exec", "execute", "raw" ].any (fun kw =>
         pfx kw.data (t.drop 3) && parenAfter (t.drop (3 + kw.data.length)))))
    (lowerStr line)

/-- Model of the handler/controller signature pattern: a Go handler function
name, a Python view function name, or a route registration call. -/
def reHandlerFuncM (line : String) : Bool :=
  strHas
    (fun t =>
      (pfx "func".data t &&
       (let r := t.drop 4
        wsAt r &&
        wordSkipKw
          [ "handle".data, "handler".data, "controller".data, "ctrl".data ]
          (r.dropWhile isSpaceRE))) ||
      (pfx "def".data t &&
       (let r := t.drop 3
        wsAt r &&
        wordSkipKw
          [ "view".data, "handler".data, "controller".data ]
          (r.dropWhile isSpaceRE))) ||
      ([ "app.", "router." ].any (fun pre =>
        pfx pre.data t &&
        [ "get", "post", "put", "delete", "patch" ].any (fun v =>
          pfx v.data ((t.drop pre.data.length).dropWhile isSpaceRE)))))
    (lowerStr line)

/-! ## Pattern tables -/

/-- The compiled pattern tables of the scanner, one matcher per compiled
regex.  The three import matchers model FindStringSubmatch together with the
submatch selection the parser performs on the match groups (a value is
returned exactly when the Go code would append an ImportReference). -/
structure Patterns where
  goImport : String → Option String
  pyImport : String → Option String
  jsImport : String → Option String
  goExport : String → Bool
  pyExport : String → Bool
  pyAllExport : String → Bool
  jsExport : String → Bool
  cryptoGo : String → Bool
  cryptoPy : String → Bool
  cryptoJS : String → Bool
  authGo : String → Bool
  authPy : String → Bool
  authJS : String → Bool
  bizLogic : String → Bool
  dbAccess : String → Bool
  httpRoute : String → Bool
  sqlInHandler : String → Bool
  handlerFunc : String → Bool

/-- Concrete pattern table: the Go-language column is the transcription of the
compiled regex literals; the Python and JavaScript matchers are never applied
to a file with extension .go, and the concrete inputs used below are all Go
files, so those columns are instantiated as never-matching. -/
def goPatterns : Patterns where
  goImport := reGoImportM
  pyImport := fun _ => none
  jsImport := fun _ => none
  goExport := reGoExportM
  pyExport := fun _ => false
  pyAllExport := fun _ => false
  jsExport := fun _ => false
  cryptoGo := reCryptoGoM
  cryptoPy := fun _ => false
  cryptoJS := fun _ => false
  authGo := reAuthGoM
  authPy := fun _ => false
  authJS := fun _ => false
  bizLogic := reBizLogicM
  dbAccess := reDBAccessM
  httpRoute := reHTTPRouteM
  sqlInHandler := reSQLInHandlerM
  handlerFunc := reHandlerFuncM

/-! ## Data model -/

/-- Severity of a finding. -/
inductive Severity where
  | low
  | medium
  | high
deriving DecidableEq, Repr

/-- Confidence of a finding. -/
inductive Confidence where
  | low
  | medium
  | high
deriving DecidableEq, Repr

/-- One reported finding, with the response-builder fields flattened: rule
identifier, severity, confidence, message, location and metadata in the order
the WithMetadata calls attach it. -/
structure Finding where
  ruleID : String
  severity : Severity
  confidence : Confidence
  message : String
  filePath : String
  startLine : Nat
  endLine : Nat
  metadata : List (String × String)
deriving DecidableEq, Repr

/-- A detected import statement (importRef in the source). -/
structure importRef where
  module : String
  line : Nat
deriving DecidableEq, Repr

/-- Parsed information about a source file (fileInfo in the source). -/
structure fileInfo where
  path : String
  ext : String
  lines : List String
  imports : List importRef
  exports : Nat
  lineCount : Nat
deriving DecidableEq, Repr

/-- Maps file extensions to human-readable language names (extToLanguage in
the source). -/
def extToLanguage (ext : String) : String :=
  if ext == ".go" then "go"
  else if ext == ".py" then "python"
  else if ext == ".js" then "javascript"
  else if ext == ".ts" then "typescript"
  else "unknown"

/-- Line count above which a file may be flagged as a god object. -/
def godFileThreshold : Nat := 500

/-- Minimum number of exports for a large file to be flagged. -/
def godExportThreshold : Nat := 10

/-- Extensions the scanner recognizes (sourceExtensions in the source,
modelled as the membership predicate of the Go map literal). -/
def sourceExtensions (ext : String) : Bool :=
  ext == ".go" || ext == ".py" || ext == ".js" || ext == ".ts"

/-- Directory names skipped during walks (skippedDirs in the source). -/
def skippedDirs (name : String) : Bool :=
  name == ".git" || name == "vendor" || name == "node_modules" ||
  name == "__pycache__" || name == ".venv" || name == "dist" || name == "build"

/-! ## File parser (parseFile, source lines 183-236) -/

/-- One iteration of the parseFile scan loop at 1-based line number `n`:
record the raw line, extract an import and count an export according to the
language switch. -/
def parseStep (P : Patterns) (ext : String) (info : fileInfo) (n : Nat)
    (line : String) : fileInfo :=
  let info := { info with lines := info.lines ++ [line] }
  if ext == ".go" then
    let info :=
      match P.goImport line with
      | some m => { info with imports := info.imports ++ [⟨m, n⟩] }
      | none => info
    if P.goExport line then { info with exports := info.exports + 1 } else info
  else if ext == ".py" then
    let info :=
      match P.pyImport line with
      | some m => { info with imports := info.imports ++ [⟨m, n⟩] }
      | none => info
    if P.pyExport line || P.pyAllExport line then
      { info with exports := info.exports + 1 }
    else info
  else if ext == ".js" || ext == ".ts" then
    let info :=
      match P.jsImport line with
      | some m => { info with imports := info.imports ++ [⟨m, n⟩] }
      | none => info
    if P.jsExport line then { info with exports := info.exports + 1 } else info
  else info

/-- The parseFile scan loop: `k` is the value of the line counter before the
iteration (the counter is incremented at the top of the loop body), and the
final counter value is returned alongside the summary. -/
def parseLines (P : Patterns) (ext : String) :
    List String → Nat → fileInfo → fileInfo × Nat
  | [], k, info => (info, k)
  | l :: ls, k, info => parseLines P ext ls (k + 1) (parseStep P ext info (k + 1) l)

/-- Reads a file (its content given as the list of scanned lines) and extracts
imports, exports and line metadata; the final line counter becomes the
summary's lineCount. -/
def parseFile (P : Patterns) (path ext : String) (content : List String) :
    fileInfo :=
  let r := parseLines P ext content 0 ⟨path, ext, [], [], 0, 0⟩
  { r.fst with lineCount := r.snd }

/-! ## ARCH-002: god object analyzer (checkGodObject, source lines 282-296) -/

/-- Flags files that exceed the line threshold with many exports. -/
def checkGodObject (fi : fileInfo) : List Finding :=
  if godFileThreshold < fi.lineCount ∧ godExportThreshold ≤ fi.exports then
    [{ ruleID := "ARCH-002"
       severity := Severity.medium
       confidence := Confidence.medium
       message := "God object/file detected: " ++ toString fi.lineCount ++
         " lines with " ++ toString fi.exports ++ " exports"
       filePath := fi.path
       startLine := 1
       endLine := 1
       metadata :=
         [ ("line_count", toString fi.lineCount),
           ("export_count", toString fi.exports),
           ("language", extToLanguage fi.ext) ] }]
  else []

/-! ## ARCH-003: security mixing analyzer (checkSecurityMixing, 299-390) -/

/-- Crypto matcher selected by the per-line language switch of the scan loop
(the extension is fixed for the whole file, so the switch reduces to this
selection). -/
def cryptoFor (P : Patterns) (ext : String) : String → Bool :=
  if ext == ".go" then P.cryptoGo
  else if ext == ".py" then P.cryptoPy
  else if ext == ".js" || ext == ".ts" then P.cryptoJS
  else fun _ => false

/-- Auth matcher selected by the per-line language switch of the scan loop. -/
def authFor (P : Patterns) (ext : String) : String → Bool :=
  if ext == ".go" then P.authGo
  else if ext == ".py" then P.authPy
  else if ext == ".js" || ext == ".ts" then P.authJS
  else fun _ => false

/-- The five booleans and two first-match line numbers the security-mixing
scan accumulates (zero means the line number is still unset). -/
structure MixState where
  hasCrypto : Bool
  hasAuth : Bool
  hasBiz : Bool
  hasDB : Bool
  hasHTTP : Bool
  cryptoLine : Nat
  authLine : Nat
deriving DecidableEq, Repr

/-- One iteration of the security-mixing scan at 1-based line number `n`. -/
def mixStep (cr au bz db ht : String → Bool) (st : MixState) (n : Nat)
    (line : String) : MixState :=
  let st :=
    if cr line then
      { st with hasCrypto := true,
                cryptoLine := if st.cryptoLine = 0 then n else st.cryptoLine }
    else st
  let st :=
    if au line then
      { st with hasAuth := true,
                authLine := if st.authLine = 0 then n else st.authLine }
    else st
  let st := if bz line then { st with hasBiz := true } else st
  let st := if db line then { st with hasDB := true } else st
  if ht line then { st with hasHTTP := true } else st

/-- The security-mixing scan loop over the file's lines, `n` being the 1-based
number of the first line of the list. -/
def mixScan (cr au bz db ht : String → Bool) :
    List String → Nat → MixState → MixState
  | [], _, st => st
  | l :: ls, n, st => mixScan cr au bz db ht ls (n + 1) (mixStep cr au bz db ht st n l)

/-- Detects crypto/auth logic mixed with business logic in the same file. -/
def checkSecurityMixing (P : Patterns) (fi : fileInfo) : List Finding :=
  let st := mixScan (cryptoFor P fi.ext) (authFor P fi.ext) P.bizLogic
    P.dbAccess P.httpRoute fi.lines 1 ⟨false, false, false, false, false, 0, 0⟩
  let securityCritical := st.hasCrypto || st.hasAuth
  let businessMixed := st.hasBiz || st.hasDB || st.hasHTTP
  if securityCritical && businessMixed then
    let reportLine := if st.cryptoLine = 0 then st.authLine else st.cryptoLine
    let detail :=
      if st.hasCrypto && st.hasAuth then "crypto/auth"
      else if st.hasAuth then "auth"
      else "crypto"
    [{ ruleID := "ARCH-003"
       severity := Severity.high
       confidence := Confidence.high
       message := "Security-critical code (" ++ detail ++
         ") mixed with business logic in same file"
       filePath := fi.path
       startLine := reportLine
       endLine := reportLine
       metadata :=
         [ ("has_crypto", if st.hasCrypto then "true" else "false"),
           ("has_auth", if st.hasAuth then "true" else "false"),
           ("has_business_logic", if st.hasBiz then "true" else "false"),
           ("language", extToLanguage fi.ext) ] }]
  else []

/-! ## ARCH-004: missing abstraction analyzer (checkMissingAbstraction,
393-420) -/

/-- The finding emitted for a direct database call on 1-based line `n`. -/
def sqlFinding (path ext : String) (n : Nat) (line : String) : Finding :=
  { ruleID := "ARCH-004"
    severity := Severity.low
    confidence := Confidence.medium
    message := "Missing abstraction layer: direct database call in handler: " ++
      trimStr line
    filePath := path
    startLine := n
    endLine := n
    metadata := [ ("language", extToLanguage ext) ] }

/-- Phase 2 of the missing-abstraction analyzer: one finding per line matching
the data-access pattern, `n` being the 1-based number of the first line. -/
def sqlFindings (sql : String → Bool) (path ext : String) :
    List String → Nat → List Finding
  | [], _ => []
  | l :: ls, n =>
      (if sql l then [sqlFinding path ext n l] else []) ++
      sqlFindings sql path ext ls (n + 1)

/-- Detects direct database calls in handler/controller files: phase 1 looks
for a handler signature (loop with early break, i.e. any), phase 2 re-scans
for data-access lines. -/
def checkMissingAbstraction (P : Patterns) (fi : fileInfo) : List Finding :=
  if fi.lines.any P.handlerFunc then
    sqlFindings P.sqlInHandler fi.path fi.ext fi.lines 1
  else []

/-! ## ARCH-001: circular dependency analyzer (checkCircularDeps, 239-279) -/

/-- Path helpers of Go's path/filepath standard library, supplied to the
analyzer and the walk as parameters: Dir, Base, and Rel (Rel's error case is
modelled as the empty string, matching the empty-string fallback test in the
source). -/
structure PathOps where
  dirF : String → String
  baseF : String → String
  relF : String → String → String

/-- Reciprocal half of the mutual-import test: some import of the other file
resolves back to this file's package name. -/
def circBack (po : PathOps) (myPkg : String) (otherImports : List String) : Bool :=
  otherImports.any (fun oi =>
    po.baseF oi == myPkg || hasSuffixStr oi ("/" ++ myPkg))

/-- Full mutual-import test for one import of the file: some other graph entry
plausibly belongs to the imported package and imports back. -/
def circCond (po : PathOps) (relPath myPkg : String)
    (graph : List (String × List String)) (imp : importRef) : Bool :=
  graph.any (fun e =>
    !(e.fst == relPath) &&
    (po.baseF imp.module == po.baseF (po.dirF e.fst) ||
     hasSuffixStr imp.module ("/" ++ po.baseF (po.dirF e.fst))) &&
    circBack po myPkg e.snd)

/-- The finding emitted for a mutual import detected at `imp`. -/
def circFinding (relPath path ext : String) (imp : importRef) : Finding :=
  { ruleID := "ARCH-001"
    severity := Severity.medium
    confidence := Confidence.high
    message := "Circular dependency risk: " ++ relPath ++ " imports " ++
      imp.module ++ " which imports back"
    filePath := path
    startLine := imp.line
    endLine := imp.line
    metadata :=
      [ ("imported_module", imp.module), ("language", extToLanguage ext) ] }

/-- The import loop of the analyzer, with the early return after the first
finding.  The emitted finding does not depend on which graph entry matched,
so the unspecified map iteration order cannot influence the output. -/
def circLoop (po : PathOps) (relPath myPkg : String)
    (graph : List (String × List String)) (path ext : String) :
    List importRef → List Finding
  | [] => []
  | imp :: rest =>
      if circCond po relPath myPkg graph imp then
        [circFinding relPath path ext imp]
      else circLoop po relPath myPkg graph path ext rest

/-- The workspace-relative path with the empty-result fallback of the source
(relPath computed from Rel, replaced by the raw path when empty). -/
def relOf (po : PathOps) (workspaceRoot path : String) : String :=
  let r := po.relF workspaceRoot path
  if r == "" then path else r

/-- Detects mutual import patterns between files. -/
def checkCircularDeps (po : PathOps) (fi : fileInfo)
    (graph : List (String × List String)) (workspaceRoot : String) :
    List Finding :=
  let relPath := relOf po workspaceRoot fi.path
  let myPkg := po.baseF (po.dirF relPath)
  circLoop po relPath myPkg graph fi.path fi.ext fi.imports

/-! ## Workspace walk (handleScan, source lines 92-164) -/

/-- Cancellation outcomes a Go context can report. -/
inductive CtxErr where
  | canceled
  | deadlineExceeded
deriving DecidableEq, Repr

mutual
/-- A directory tree entry; `readable` models whether opening the file
succeeds (parse failures skip the file). -/
inductive FSEntry where
  | file (name : String) (content : List String) (readable : Bool) : FSEntry
  | dir (name : String) (entries : FSList) : FSEntry
inductive FSList where
  | nil : FSList
  | cons (e : FSEntry) (rest : FSList) : FSList
end

/-- One collected file: the names of the directories between the workspace
root and the file (in order), and the parsed summary. -/
structure FileRec where
  dirs : List String
  info : fileInfo
deriving DecidableEq, Repr

/-- State threaded through the walk callback: collected files, the import
graph as an association list modelling the Go map, and the number of callback
invocations so far (used to index the cancellation model). -/
structure ScanState where
  files : List FileRec
  graph : List (String × List String)
  steps : Nat
deriving DecidableEq, Repr

/-- Model of appending to a Go map entry `m[k] = append(m[k], v)`: a missing
key is created with the one-element list. -/
def mapAppend (g : List (String × List String)) (k v : String) :
    List (String × List String) :=
  match g with
  | [] => [(k, [v])]
  | (k', vs) :: rest =>
      if k' == k then (k', vs ++ [v]) :: rest else (k', vs) :: mapAppend rest k v

/-- Key-presence test of the Go map model. -/
def hasKey (g : List (String × List String)) (k : String) : Bool :=
  g.any (fun e => e.fst == k)

/-- Extension of a file name from its final dot (filepath.Ext on a name
without separators); yields the empty string when there is no dot. -/
def extCore : List Char → Option (List Char)
  | [] => none
  | '.' :: cs =>
      (match extCore cs with
       | some r => some r
       | none => some ('.' :: cs))
  | _ :: cs => extCore cs

/-- Extension of a file name, including the dot. -/
def extOf (name : String) : String :=
  match extCore name.data with
  | some r => String.mk r
  | none => ""

/-- Joins the workspace root with the relative segments of a walked path
(filepath.Join on the clean names of the tree). -/
def pathJoin (root : String) (segs : List String) : String :=
  if segs.isEmpty then root else root ++ "/" ++ String.intercalate "/" segs

/-- The walk callback body for a regular file (source lines 110-142): swallow
nothing here because the error argument is nil for entries reached by the
walk; observe cancellation, filter by extension, parse (an unreadable file is
skipped), record the summary and append its imports to the graph entry of its
workspace-relative path. -/
def fileCB (po : PathOps) (P : Patterns) (ctx : Nat → Option CtxErr)
    (rootPath : String) (dirs : List String) (path name : String)
    (content : List String) (readable : Bool) (st : ScanState) :
    ScanState × Option CtxErr :=
  let c := ctx st.steps
  let st1 := { st with steps := st.steps + 1 }
  match c with
  | some e => (st1, some e)
  | none =>
      let ext := extOf name
      if !sourceExtensions ext then (st1, none)
      else if !readable then (st1, none)
      else
        let info := parseFile P path ext content
        let relPath := relOf po rootPath path
        let graph1 :=
          info.imports.foldl (fun g imp => mapAppend g relPath imp.module) st1.graph
        ({ st1 with files := st1.files ++ [⟨dirs, info⟩], graph := graph1 }, none)

/-- Depth-first walk over a list of sibling entries (the recursive part of
filepath.WalkDir driving the callback): `segs` is the list of directory names
between the root and these entries.  A skipped directory is pruned; a callback
error aborts the whole walk and is returned. -/
def walkL (po : PathOps) (P : Patterns) (ctx : Nat → Option CtxErr)
    (rootPath : String) : FSList → List String → ScanState →
    ScanState × Option CtxErr
  | .nil, _, st => (st, none)
  | .cons (.file n content readable) rest, segs, st =>
      match fileCB po P ctx rootPath segs (pathJoin rootPath (segs ++ [n])) n
          content readable st with
      | (st1, some e) => (st1, some e)
      | (st1, none) => walkL po P ctx rootPath rest segs st1
  | .cons (.dir n es) rest, segs, st =>
      let c := ctx st.steps
      let st1 := { st with steps := st.steps + 1 }
      match c with
      | some e => (st1, some e)
      | none =>
          if skippedDirs n then walkL po P ctx rootPath rest segs st1
          else
            match walkL po P ctx rootPath es (segs ++ [n]) st1 with
            | (st2, some e) => (st2, some e)
            | (st2, none) => walkL po P ctx rootPath rest segs st2

/-- The initial walk state. -/
def initState : ScanState := ⟨[], [], 0⟩

/-- Model of the filepath.WalkDir call of handleScan.  A nonexistent root
(`none`) makes WalkDir invoke the callback once with a non-nil error, which
the callback body swallows (`if err != nil: return nil`), so the walk returns
no error and no state.  A root directory whose name is in the skip set
returns SkipDir, which WalkDir converts to a nil error. -/
def scanWalk (po : PathOps) (P : Patterns) (ctx : Nat → Option CtxErr)
    (rootPath : String) (root : Option FSEntry) : ScanState × Option CtxErr :=
  match root with
  | none => (initState, none)
  | some (.file n content readable) =>
      fileCB po P ctx rootPath [] rootPath n content readable initState
  | some (.dir n es) =>
      let c := ctx initState.steps
      let st1 := { initState with steps := initState.steps + 1 }
      match c with
      | some e => (st1, some e)
      | none =>
          if skippedDirs n then (st1, none)
          else walkL po P ctx rootPath es [] st1

/-- The analysis loop of handleScan: the four analyzers over every collected
summary, in source order, findings concatenated in emission order. -/
def analyzeAll (po : PathOps) (P : Patterns) (rootPath : String)
    (files : List FileRec) (graph : List (String × List String)) :
    List Finding :=
  (files.map (fun fr =>
    checkCircularDeps po fr.info graph rootPath ++
    checkGodObject fr.info ++
    checkSecurityMixing P fr.info ++
    checkMissingAbstraction P fr.info)).flatten

/-- All findings a scan run emits (the response built by handleScan when it
does not fail). -/
def scanFindings (po : PathOps) (P : Patterns) (ctx : Nat → Option CtxErr)
    (rootPath : String) (root : Option FSEntry) : List Finding :=
  let st := (scanWalk po P ctx rootPath root).fst
  analyzeAll po P rootPath st.files st.graph

/-- Model of handleScan: an empty workspace root yields an empty successful
response; a walk error other than context.Canceled is returned as a run-level
failure; otherwise the analyzers run over whatever was collected. -/
def handleScan (po : PathOps) (P : Patterns) (ctx : Nat → Option CtxErr)
    (rootPath : String) (root : Option FSEntry) :
    Except CtxErr (List Finding) :=
  if rootPath == "" then Except.ok []
  else
    match (scanWalk po P ctx rootPath root).snd with
    | some e =>
        if e = CtxErr.canceled then Except.ok (scanFindings po P ctx rootPath root)
        else Except.error e
    | none => Except.ok (scanFindings po P ctx rootPath root)

/-! ## Concrete path operations (models of the filepath functions, used to
instantiate the PathOps parameter on concrete inputs) -/

/-- Removes trailing path separators. -/
def dropTrailingSep (l : List Char) : List Char :=
  (l.reverse.dropWhile (fun c => c == '/')).reverse

/-- Model of filepath.Base (Unix rules). -/
def pathBase (p : String) : String :=
  if p.data.isEmpty then "."
  else
    let q := dropTrailingSep p.data
    if q.isEmpty then "/"
    else String.mk ((q.reverse.takeWhile (fun c => !(c == '/'))).reverse)

/-- Model of filepath.Dir on the clean relative paths produced by the walk:
everything before the last separator, or dot when there is none. -/
def pathDir (p : String) : String :=
  let pre := (p.data.reverse.dropWhile (fun c => !(c == '/'))).reverse
  if pre.isEmpty then "."
  else if pre == ['/'] then "/"
  else String.mk (dropTrailingSep pre)

/-- Model of filepath.Rel for a path lying beneath the root: strip the root
prefix; the root itself maps to dot; unrelated paths model Rel's error case
as the empty string. -/
def relStrip (root p : String) : String :=
  if pfx (root.data ++ ['/']) p.data then
    String.mk (p.data.drop (root.data.length + 1))
  else if p == root then "."
  else ""

/-- The concrete path operations used on concrete inputs. -/
def po0 : PathOps := ⟨pathDir, pathBase, relStrip⟩

/-! ## Concrete inputs used to instantiate the theorems -/

/-- God-object boundary instance: 501 lines, 10 exports. -/
def fiG501x10 : fileInfo := ⟨"ws/g1.go", ".go", [], [], 10, 501⟩

/-- God-object boundary instance: 500 lines, 10 exports. -/
def fiG500x10 : fileInfo := ⟨"ws/g2.go", ".go", [], [], 10, 500⟩

/-- God-object boundary instance: 500 lines, 11 exports. -/
def fiG500x11 : fileInfo := ⟨"ws/g3.go", ".go", [], [], 11, 500⟩

/-- A Go file mixing a crypto import with a business-logic function. -/
def fiMix : fileInfo :=
  parseFile goPatterns "ws/m.go" ".go"
    ["package x", "\t\"crypto/hmac\"", "func handleThing() \x7b"]

/-- The ARCH-003 finding the mixed file produces. -/
def mixF : Finding :=
  ⟨"ARCH-003", Severity.high, Confidence.high,
   "Security-critical code (crypto) mixed with business logic in same file",
   "ws/m.go", 2, 2,
   [("has_crypto", "true"), ("has_auth", "false"),
    ("has_business_logic", "true"), ("language", "go")]⟩

/-- A Go file with only a crypto signal and nothing else. -/
def fiOnly : fileInfo :=
  parseFile goPatterns "ws/c.go" ".go" ["\t\"crypto/hmac\""]

/-- A handler file with one direct database call. -/
def fiMiss : fileInfo :=
  parseFile goPatterns "ws/h.go" ".go"
    ["func HandleGet() \x7b", "\tdb.Query(\"SELECT 1\")", "\x7d"]

/-- The ARCH-004 finding the handler file produces. -/
def missF : Finding :=
  ⟨"ARCH-004", Severity.low, Confidence.medium,
   "Missing abstraction layer: direct database call in handler: db.Query(\"SELECT 1\")",
   "ws/h.go", 2, 2, [("language", "go")]⟩

/-- A file with raw SQL but no handler signature. -/
def fiNoHandler : fileInfo :=
  parseFile goPatterns "ws/r.go" ".go"
    ["package x", "var q = db.Query(\"SELECT 1\")"]

/-- A file with two imports that both have mutual-import candidates. -/
def fiCirc : fileInfo :=
  ⟨"ws/a/x.go", ".go", [], [⟨"proj/b", 3⟩, ⟨"util/b", 9⟩], 0, 0⟩

/-- An import graph offering two reciprocal candidates for the file above. -/
def circG : List (String × List String) :=
  [("b/y.go", ["something/a"]), ("b/z.go", ["q/a"])]

/-- The single ARCH-001 finding the file above produces. -/
def circF : Finding := circFinding "a/x.go" "ws/a/x.go" ".go" ⟨"proj/b", 3⟩

/-- Content whose middle line is a quoted string inside a slice literal. -/
def contentC10 : List String :=
  ["var xs = []string\x7b", "\t\"not-an-import\",", "\x7d"]

/-- Content with one line import and one export declaration. -/
def contentC8 : List String :=
  ["package main", "\t\"modx\"", "func Exported() \x7b\x7d"]

/-- A workspace with a single parsed Go file that has no imports. -/
def fsNoImp : FSEntry :=
  .dir "r" (.cons (.file "a.go" ["package main"] true) .nil)

/-- A workspace with a single parsed Go file that has one line import. -/
def fsOne : FSEntry :=
  .dir "r" (.cons (.file "a.go" ["\"modx\""] true) .nil)

/-- The file record collected from the one-import workspace. -/
def frImp : FileRec := ⟨[], parseFile goPatterns "ws/a.go" ".go" ["\"modx\""]⟩

/-- A workspace with a handler file next to a vendor directory holding an
identical handler file that must be pruned. -/
def fsSkip : FSEntry :=
  .dir "r"
    (.cons (.file "h.go" ["func HandleGet() \x7b", "\tdb.Query(\"SELECT 1\")", "\x7d"] true)
      (.cons (.dir "vendor"
        (.cons (.file "bad.go"
          ["func HandleGet() \x7b", "\tdb.Query(\"SELECT 1\")", "\x7d"] true) .nil))
        .nil))

/-- The one finding the skip-directory workspace produces. -/
def skipF : Finding := sqlFinding "ws/h.go" ".go" 2 "\tdb.Query(\"SELECT 1\")"

/-- Replay of the graph construction of the walk callback over the collected
file records, used to state what the finished graph contains. -/
def buildGraph (po : PathOps) (rootPath : String) (files : List FileRec) :
    List (String × List String) :=
  files.foldl
    (fun g fr =>
      fr.info.imports.foldl
        (fun g imp => mapAppend g (relOf po rootPath fr.info.path) imp.module) g)
    []

/-! ## Helper lemmas about the security-mixing scan -/

theorem mixStep_spec (cr au bz db ht : String → Bool) (st : MixState) (n : Nat)
    (l : String) :
    mixStep cr au bz db ht st n l =
      ⟨st.hasCrypto || cr l, st.hasAuth || au l, st.hasBiz || bz l,
       st.hasDB || db l, st.hasHTTP || ht l,
       if cr l then (if st.cryptoLine = 0 then n else st.cryptoLine)
       else st.cryptoLine,
       if au l then (if st.authLine = 0 then n else st.authLine)
       else st.authLine⟩ := by
  unfold mixStep
  by_cases h1 : cr l <;> by_cases h2 : au l <;> by_cases h3 : bz l <;>
    by_cases h4 : db l <;> by_cases h5 : ht l <;>
    simp [h1, h2, h3, h4, h5]

theorem mixScan_hasCrypto (cr au bz db ht : String → Bool) (ls : List String) :
    ∀ (n : Nat) (st : MixState),
    (mixScan cr au bz db ht ls n st).hasCrypto = (st.hasCrypto || ls.any cr) := by
  induction ls with
  | nil => intro n st; simp [mixScan]
  | cons l ls ih =>
      intro n st
      simp [mixScan, ih, mixStep_spec, Bool.or_assoc]

theorem mixScan_hasAuth (cr au bz db ht : String → Bool) (ls : List String) :
    ∀ (n : Nat) (st : MixState),
    (mixScan cr au bz db ht ls n st).hasAuth = (st.hasAuth || ls.any au) := by
  induction ls with
  | nil => intro n st; simp [mixScan]
  | cons l ls ih =>
      intro n st
      simp [mixScan, ih, mixStep_spec, Bool.or_assoc]

theorem mixScan_hasBiz (cr au bz db ht : String → Bool) (ls : List String) :
    ∀ (n : Nat) (st : MixState),
    (mixScan cr au bz db ht ls n st).hasBiz = (st.hasBiz || ls.any bz) := by
  induction ls with
  | nil => intro n st; simp [mixScan]
  | cons l ls ih =>
      intro n st
      simp [mixScan, ih, mixStep_spec, Bool.or_assoc]

theorem mixScan_hasDB (cr au bz db ht : String → Bool) (ls : List String) :
    ∀ (n : Nat) (st : MixState),
    (mixScan cr au bz db ht ls n st).hasDB = (st.hasDB || ls.any db) := by
  induction ls with
  | nil => intro n st; simp [mixScan]
  | cons l ls ih =>
      intro n st
      simp [mixScan, ih, mixStep_spec, Bool.or_assoc]

theorem mixScan_hasHTTP (cr au bz db ht : String → Bool) (ls : List String) :
    ∀ (n : Nat) (st : MixState),
    (mixScan cr au bz db ht ls n st).hasHTTP = (st.hasHTTP || ls.any ht) := by
  induction ls with
  | nil => intro n st; simp [mixScan]
  | cons l ls ih =>
      intro n st
      simp [mixScan, ih, mixStep_spec, Bool.or_assoc]

theorem mixScan_cryptoLine_ne (cr au bz db ht : String → Bool) (ls : List String) :
    ∀ (n : Nat) (st : MixState), st.cryptoLine ≠ 0 →
    (mixScan cr au bz db ht ls n st).cryptoLine = st.cryptoLine := by
  induction ls with
  | nil => intro n st _; simp [mixScan]
  | cons l ls ih =>
      intro n st h
      have hstep : (mixStep cr au bz db ht st n l).cryptoLine = st.cryptoLine := by
        simp [mixStep_spec, h]
      simp only [mixScan]
      rw [ih (n + 1) _ (by rw [hstep]; exact h), hstep]

theorem mixScan_authLine_ne (cr au bz db ht : String → Bool) (ls : List String) :
    ∀ (n : Nat) (st : MixState), st.authLine ≠ 0 →
    (mixScan cr au bz db ht ls n st).authLine = st.authLine := by
  induction ls with
  | nil => intro n st _; simp [mixScan]
  | cons l ls ih =>
      intro n st h
      have hstep : (mixStep cr au bz db ht st n l).authLine = st.authLine := by
        simp [mixStep_spec, h]
      simp only [mixScan]
      rw [ih (n + 1) _ (by rw [hstep]; exact h), hstep]

theorem mixScan_cryptoLine_zero (cr au bz db ht : String → Bool) (ls : List String) :
    ∀ (n : Nat) (st : MixState), 0 < n → st.cryptoLine = 0 →
    (mixScan cr au bz db ht ls n st).cryptoLine =
      (if ls.any cr then n + ls.findIdx cr else 0) := by
  induction ls with
  | nil => intro n st _ h0; simp [mixScan, h0]
  | cons l ls ih =>
      intro n st hn h0
      by_cases hc : cr l
      · have hstep : (mixStep cr au bz db ht st n l).cryptoLine = n := by
          simp [mixStep_spec, hc, h0]
        simp only [mixScan]
        rw [mixScan_cryptoLine_ne cr au bz db ht ls (n + 1) _
          (by rw [hstep]; omega), hstep]
        simp [List.any_cons, hc, List.findIdx_cons]
      · have hstep : (mixStep cr au bz db ht st n l).cryptoLine = 0 := by
          simp [mixStep_spec, hc, h0]
        simp only [mixScan]
        rw [ih (n + 1) _ (by omega) hstep]
        simp only [List.any_cons, hc, List.findIdx_cons, Bool.false_or,
          cond_false]
        by_cases ha : ls.any cr
        · simp [ha]
          omega
        · simp [ha]

theorem mixScan_authLine_zero (cr au bz db ht : String → Bool) (ls : List String) :
    ∀ (n : Nat) (st : MixState), 0 < n → st.authLine = 0 →
    (mixScan cr au bz db ht ls n st).authLine =
      (if ls.any au then n + ls.findIdx au else 0) := by
  induction ls with
  | nil => intro n st _ h0; simp [mixScan, h0]
  | cons l ls ih =>
      intro n st hn h0
      by_cases hc : au l
      · have hstep : (mixStep cr au bz db ht st n l).authLine = n := by
          simp [mixStep_spec, hc, h0]
        simp only [mixScan]
        rw [mixScan_authLine_ne cr au bz db ht ls (n + 1) _
          (by rw [hstep]; omega), hstep]
        simp [List.any_cons, hc, List.findIdx_cons]
      · have hstep : (mixStep cr au bz db ht st n l).authLine = 0 := by
          simp [mixStep_spec, hc, h0]
        simp only [mixScan]
        rw [ih (n + 1) _ (by omega) hstep]
        simp only [List.any_cons, hc, List.findIdx_cons, Bool.false_or,
          cond_false]
        by_cases ha : ls.any au
        · simp [ha]
          omega
        · simp [ha]

/-- C1: the god-object analyzer emits a finding (exactly one) iff the line
count strictly exceeds 500 and the export count is at least 10; the finding is
anchored at line 1 and its metadata carries the exact line count and export
count. -/
theorem god_object_threshold_iff (fi : fileInfo) :
    ((checkGodObject fi).length = 1 ↔ (500 < fi.lineCount ∧ 10 ≤ fi.exports))
  ∧ ∀ f ∈ checkGodObject fi,
      f.startLine = 1 ∧ f.endLine = 1 ∧
      ("line_count", toString fi.lineCount) ∈ f.metadata ∧
      ("export_count", toString fi.exports) ∈ f.metadata := by
  constructor
  · unfold checkGodObject godFileThreshold godExportThreshold
    split <;> simp_all
  · intro f hf
    unfold checkGodObject at hf
    split at hf <;> simp_all

/-- Witness for C1 at the three boundary instances: 501 lines and 10 exports
fire, 500 lines with 10 or 11 exports do not. -/
theorem god_object_threshold_iff_witness :
    (checkGodObject fiG501x10).length = 1 ∧
    checkGodObject fiG500x10 = [] ∧ checkGodObject fiG500x11 = [] :=
  ⟨(god_object_threshold_iff fiG501x10).1.mpr (by decide), by decide, by decide⟩

/-- C2: the security-mixing analyzer emits exactly one finding iff a crypto or
auth signal is present on some line and a business-logic, data-access or HTTP
route signal is present on some line; the finding is anchored at the first
crypto line, falling back to the first auth line when no line matches the
crypto pattern. -/
theorem security_mixing_iff_anchor (P : Patterns) (fi : fileInfo) :
    ((checkSecurityMixing P fi).length = 1 ↔
      ((fi.lines.any (cryptoFor P fi.ext) || fi.lines.any (authFor P fi.ext)) &&
       (fi.lines.any P.bizLogic || fi.lines.any P.dbAccess ||
        fi.lines.any P.httpRoute)) = true)
  ∧ ∀ f ∈ checkSecurityMixing P fi,
      f.startLine =
        (if fi.lines.any (cryptoFor P fi.ext) then
           fi.lines.findIdx (cryptoFor P fi.ext) + 1
         else fi.lines.findIdx (authFor P fi.ext) + 1)
      ∧ f.endLine = f.startLine ∧ f.filePath = fi.path := by
  have hcr : (mixScan (cryptoFor P fi.ext) (authFor P fi.ext) P.bizLogic
      P.dbAccess P.httpRoute fi.lines 1 ⟨false, false, false, false, false, 0, 0⟩).hasCrypto
      = fi.lines.any (cryptoFor P fi.ext) := by
    simp [mixScan_hasCrypto]
  have hau : (mixScan (cryptoFor P fi.ext) (authFor P fi.ext) P.bizLogic
      P.dbAccess P.httpRoute fi.lines 1 ⟨false, false, false, false, false, 0, 0⟩).hasAuth
      = fi.lines.any (authFor P fi.ext) := by
    simp [mixScan_hasAuth]
  have hbz : (mixScan (cryptoFor P fi.ext) (authFor P fi.ext) P.bizLogic
      P.dbAccess P.httpRoute fi.lines 1 ⟨false, false, false, false, false, 0, 0⟩).hasBiz
      = fi.lines.any P.bizLogic := by
    simp [mixScan_hasBiz]
  have hdb : (mixScan (cryptoFor P fi.ext) (authFor P fi.ext) P.bizLogic
      P.dbAccess P.httpRoute fi.lines 1 ⟨false, false, false, false, false, 0, 0⟩).hasDB
      = fi.lines.any P.dbAccess := by
    simp [mixScan_hasDB]
  have hht : (mixScan (cryptoFor P fi.ext) (authFor P fi.ext) P.bizLogic
      P.dbAccess P.httpRoute fi.lines 1 ⟨false, false, false, false, false, 0, 0⟩).hasHTTP
      = fi.lines.any P.httpRoute := by
    simp [mixScan_hasHTTP]
  have hcl : (mixScan (cryptoFor P fi.ext) (authFor P fi.ext) P.bizLogic
      P.dbAccess P.httpRoute fi.lines 1 ⟨false, false, false, false, false, 0, 0⟩).cryptoLine
      = (if fi.lines.any (cryptoFor P fi.ext) then
          1 + fi.lines.findIdx (cryptoFor P fi.ext) else 0) := by
    simpa using mixScan_cryptoLine_zero (cryptoFor P fi.ext) (authFor P fi.ext)
      P.bizLogic P.dbAccess P.httpRoute fi.lines 1
      ⟨false, false, false, false, false, 0, 0⟩ (by omega) rfl
  have hal : (mixScan (cryptoFor P fi.ext) (authFor P fi.ext) P.bizLogic
      P.dbAccess P.httpRoute fi.lines 1 ⟨false, false, false, false, false, 0, 0⟩).authLine
      = (if fi.lines.any (authFor P fi.ext) then
          1 + fi.lines.findIdx (authFor P fi.ext) else 0) := by
    simpa using mixScan_authLine_zero (cryptoFor P fi.ext) (authFor P fi.ext)
      P.bizLogic P.dbAccess P.httpRoute fi.lines 1
      ⟨false, false, false, false, false, 0, 0⟩ (by omega) rfl
  by_cases hsec : ((fi.lines.any (cryptoFor P fi.ext) ||
      fi.lines.any (authFor P fi.ext)) &&
      (fi.lines.any P.bizLogic || fi.lines.any P.dbAccess ||
       fi.lines.any P.httpRoute)) = true
  · constructor
    · simp [checkSecurityMixing, hcr, hau, hbz, hdb, hht, hsec]
    · intro f hf
      simp only [checkSecurityMixing, hcr, hau, hbz, hdb, hht, hcl, hal, hsec,
        if_true, List.mem_singleton] at hf
      subst hf
      refine ⟨?_, rfl, rfl⟩
      by_cases h1 : fi.lines.any (cryptoFor P fi.ext)
      · simp [h1, Nat.add_comm]
      · have h2 : fi.lines.any (authFor P fi.ext) = true := by
          rcases Bool.and_eq_true_iff.mp hsec with ⟨ha, _⟩
          rcases Bool.or_eq_true_iff.mp ha with h | h
          · exact absurd h h1
          · exact h
        simp [h1, h2, Nat.add_comm]
  · constructor
    · simp [checkSecurityMixing, hcr, hau, hbz, hdb, hht, hsec]
    · intro f hf
      simp only [checkSecurityMixing, hcr, hau, hbz, hdb, hht] at hf
      rw [if_neg] at hf
      · simp at hf
      · simpa using hsec

/-- Witness for C2: the mixed file yields exactly the expected finding
anchored at its crypto line, and a file with only a crypto signal yields
nothing. -/
theorem security_mixing_iff_anchor_witness :
    (checkSecurityMixing goPatterns fiMix).length = 1
  ∧ mixF ∈ checkSecurityMixing goPatterns fiMix
  ∧ mixF.startLine = 2
  ∧ checkSecurityMixing goPatterns fiOnly = [] := by
  refine ⟨(security_mixing_iff_anchor goPatterns fiMix).1.mpr (by decide),
    by decide, ?_, by decide⟩
  exact (((security_mixing_iff_anchor goPatterns fiMix).2 mixF (by decide)).1).trans
    (by decide)

/-! ## Helper lemmas about the missing-abstraction scan -/

theorem sqlFindings_length (sql : String → Bool) (path ext : String)
    (ls : List String) : ∀ n : Nat,
    (sqlFindings sql path ext ls n).length = ls.countP sql := by
  induction ls with
  | nil => intro n; simp [sqlFindings]
  | cons l ls ih =>
      intro n
      by_cases h : sql l <;>
        simp [sqlFindings, h, ih, List.countP_cons]

theorem sqlFindings_mem (sql : String → Bool) (path ext : String)
    (ls : List String) : ∀ (n : Nat) (f : Finding),
    f ∈ sqlFindings sql path ext ls n →
    ∃ i, ∃ h : i < ls.length, sql (ls.get ⟨i, h⟩) = true ∧
      f = sqlFinding path ext (n + i) (ls.get ⟨i, h⟩) := by
  induction ls with
  | nil => intro n f hf; simp [sqlFindings] at hf
  | cons l ls ih =>
      intro n f hf
      simp only [sqlFindings, List.mem_append] at hf
      rcases hf with hf | hf
      · by_cases h : sql l
        · simp only [h, if_true, List.mem_singleton] at hf
          exact ⟨0, by simp, by simpa using h, by simpa using hf⟩
        · simp [h] at hf
      · obtain ⟨i, hi, hs, he⟩ := ih (n + 1) f hf
        refine ⟨i + 1, by simpa using Nat.succ_lt_succ hi, ?_, ?_⟩
        · simpa [List.get_cons_succ] using hs
        · rw [he]
          simp [List.get_cons_succ]
          congr 1
          omega

/-- C3: the missing-abstraction analyzer emits nothing when no line matches
the handler pattern, regardless of data-access lines; otherwise it emits one
finding per data-access line, anchored at that line, with the line's trimmed
text embedded in the message. -/
theorem missing_abstraction_two_phase (P : Patterns) (fi : fileInfo) :
    (fi.lines.any P.handlerFunc = false → checkMissingAbstraction P fi = [])
  ∧ (fi.lines.any P.handlerFunc = true →
      (checkMissingAbstraction P fi).length = fi.lines.countP P.sqlInHandler
    ∧ ∀ f ∈ checkMissingAbstraction P fi, ∃ i, ∃ h : i < fi.lines.length,
        P.sqlInHandler (fi.lines.get ⟨i, h⟩) = true ∧ f.startLine = i + 1 ∧
        f.endLine = i + 1 ∧
        f.message =
          "Missing abstraction layer: direct database call in handler: " ++
            trimStr (fi.lines.get ⟨i, h⟩) ∧
        f.filePath = fi.path) := by
  constructor
  · intro h
    simp [checkMissingAbstraction, h]
  · intro h
    constructor
    · simp [checkMissingAbstraction, h, sqlFindings_length]
    · intro f hf
      simp only [checkMissingAbstraction, h, if_true] at hf
      obtain ⟨i, hi, hs, he⟩ := sqlFindings_mem P.sqlInHandler fi.path fi.ext
        fi.lines 1 f hf
      refine ⟨i, hi, hs, ?_, ?_, ?_, ?_⟩ <;> rw [he] <;> simp [sqlFinding] <;>
        omega

/-- Witness for C3: the handler file yields exactly its one expected finding,
and the handler-free file with raw SQL yields nothing. -/
theorem missing_abstraction_two_phase_witness :
    (checkMissingAbstraction goPatterns fiMiss).length = 1
  ∧ missF ∈ checkMissingAbstraction goPatterns fiMiss
  ∧ checkMissingAbstraction goPatterns fiNoHandler = [] := by
  refine ⟨?_, by decide, ?_⟩
  · exact (((missing_abstraction_two_phase goPatterns fiMiss).2 (by decide)).1).trans
      (by decide)
  · exact (missing_abstraction_two_phase goPatterns fiNoHandler).1 (by decide)

/-! ## Helper lemmas about the circular-dependency loop -/

theorem circLoop_mem (po : PathOps) (relPath myPkg : String)
    (graph : List (String × List String)) (path ext : String) :
    ∀ (imps : List importRef) (f : Finding),
    f ∈ circLoop po relPath myPkg graph path ext imps →
    (circLoop po relPath myPkg graph path ext imps).length = 1 ∧
    ∃ imp ∈ imps, circCond po relPath myPkg graph imp = true ∧
      f = circFinding relPath path ext imp := by
  intro imps
  induction imps with
  | nil => intro f hf; simp [circLoop] at hf
  | cons imp rest ih =>
      intro f hf
      by_cases hc : circCond po relPath myPkg graph imp
      · simp only [circLoop, hc, if_true, List.mem_singleton] at hf
        subst hf
        exact ⟨by simp [circLoop, hc], imp, by simp, hc, rfl⟩
      · simp only [circLoop, hc, if_false] at hf
        obtain ⟨hlen, imp', hmem, hcond, he⟩ := ih f hf
        refine ⟨?_, imp', by simp [hmem], hcond, he⟩
        simpa [circLoop, hc] using hlen

/-- C4: the circular-dependency analyzer emits at most one finding per file
(whenever a finding is emitted it is the only one), anchored at the line of
the import whose reciprocal package-name match was found. -/
theorem circular_deps_at_most_once (po : PathOps) (fi : fileInfo)
    (graph : List (String × List String)) (workspaceRoot : String)
    (f : Finding) (hf : f ∈ checkCircularDeps po fi graph workspaceRoot) :
    (checkCircularDeps po fi graph workspaceRoot).length = 1
  ∧ ∃ imp ∈ fi.imports,
      circCond po (relOf po workspaceRoot fi.path)
        (po.baseF (po.dirF (relOf po workspaceRoot fi.path))) graph imp = true
      ∧ f.startLine = imp.line ∧ f.endLine = imp.line ∧ f.filePath = fi.path := by
  unfold checkCircularDeps at hf ⊢
  obtain ⟨hlen, imp, hmem, hcond, he⟩ := circLoop_mem po
    (relOf po workspaceRoot fi.path)
    (po.baseF (po.dirF (relOf po workspaceRoot fi.path))) graph fi.path fi.ext
    fi.imports f hf
  exact ⟨hlen, imp, hmem, hcond, by rw [he]; rfl, by rw [he]; rfl, by rw [he]; rfl⟩

/-- Witness for C4: with two imports that both have reciprocal candidates in
a graph offering two matching entries, exactly one finding is produced,
anchored at the first import's line. -/
theorem circular_deps_at_most_once_witness :
    (checkCircularDeps po0 fiCirc circG "ws").length = 1
  ∧ circF ∈ checkCircularDeps po0 fiCirc circG "ws"
  ∧ circF.startLine = 3 := by
  refine ⟨(circular_deps_at_most_once po0 fiCirc circG "ws" circF (by decide)).1,
    by decide, by decide⟩

/-! ## Helper lemmas about the file parser -/

theorem parseStep_lines (P : Patterns) (ext : String) (info : fileInfo)
    (n : Nat) (l : String) :
    (parseStep P ext info n l).lines = info.lines ++ [l] := by
  unfold parseStep
  repeat' split
  all_goals rfl

theorem parseStep_path (P : Patterns) (ext : String) (info : fileInfo)
    (n : Nat) (l : String) :
    (parseStep P ext info n l).path = info.path := by
  unfold parseStep
  repeat' split
  all_goals rfl

theorem parseStep_imports (P : Patterns) (ext : String) (info : fileInfo)
    (n : Nat) (l : String) :
    (parseStep P ext info n l).imports = info.imports ∨
    ∃ m : String, (parseStep P ext info n l).imports = info.imports ++ [⟨m, n⟩] := by
  unfold parseStep
  repeat' split
  all_goals simp_all

theorem parseLines_snd (P : Patterns) (ext : String) (ls : List String) :
    ∀ (k : Nat) (info : fileInfo),
    (parseLines P ext ls k info).snd = k + ls.length := by
  induction ls with
  | nil => intro k info; simp [parseLines]
  | cons l ls ih =>
      intro k info
      simp only [parseLines, ih, List.length_cons]
      omega

theorem parseLines_lines (P : Patterns) (ext : String) (ls : List String) :
    ∀ (k : Nat) (info : fileInfo),
    (parseLines P ext ls k info).fst.lines.length = info.lines.length + ls.length := by
  induction ls with
  | nil => intro k info; simp [parseLines]
  | cons l ls ih =>
      intro k info
      simp only [parseLines, ih, parseStep_lines, List.length_append,
        List.length_cons, List.length_nil]
      omega

theorem parseLines_path (P : Patterns) (ext : String) (ls : List String) :
    ∀ (k : Nat) (info : fileInfo),
    (parseLines P ext ls k info).fst.path = info.path := by
  induction ls with
  | nil => intro k info; simp [parseLines]
  | cons l ls ih =>
      intro k info
      simp only [parseLines, ih, parseStep_path]

theorem parseLines_imports_bound (P : Patterns) (ext : String) (ls : List String) :
    ∀ (k : Nat) (info : fileInfo),
    (∀ imp ∈ info.imports, 1 ≤ imp.line ∧ imp.line ≤ k) →
    ∀ imp ∈ (parseLines P ext ls k info).fst.imports,
      1 ≤ imp.line ∧ imp.line ≤ k + ls.length := by
  induction ls with
  | nil =>
      intro k info h imp hmem
      simpa using h imp (by simpa [parseLines] using hmem)
  | cons l ls ih =>
      intro k info h imp hmem
      have hstep : ∀ imp ∈ (parseStep P ext info (k + 1) l).imports,
          1 ≤ imp.line ∧ imp.line ≤ k + 1 := by
        intro imp' hmem'
        rcases parseStep_imports P ext info (k + 1) l with he | ⟨m, he⟩
        · rw [he] at hmem'
          have := h imp' hmem'
          omega
        · rw [he] at hmem'
          rcases List.mem_append.mp hmem' with hold | hnew
          · have := h imp' hold
            omega
          · simp only [List.mem_singleton] at hnew
            subst hnew
            simp
      have := ih (k + 1) (parseStep P ext info (k + 1) l) hstep imp
        (by simpa [parseLines] using hmem)
      simp only [List.length_cons]
      omega

/-- C8: for every summary the parser returns, the recorded lineCount equals
the number of entries of lines, and every extracted import reference has a
1-based line number within the file. -/
theorem parse_line_invariants (P : Patterns) (path ext : String)
    (content : List String) :
    (parseFile P path ext content).lineCount =
      (parseFile P path ext content).lines.length
  ∧ ∀ imp ∈ (parseFile P path ext content).imports,
      1 ≤ imp.line ∧ imp.line ≤ (parseFile P path ext content).lineCount := by
  constructor
  · show (parseLines P ext content 0 _).snd =
      (parseLines P ext content 0 ⟨path, ext, [], [], 0, 0⟩).fst.lines.length
    rw [parseLines_snd]
    have h2 := parseLines_lines P ext content 0 ⟨path, ext, [], [], 0, 0⟩
    simp [h2]
  · intro imp hmem
    have hb := parseLines_imports_bound P ext content 0 ⟨path, ext, [], [], 0, 0⟩
      (by simp) imp hmem
    have hs := parseLines_snd P ext content 0 ⟨path, ext, [], [], 0, 0⟩
    constructor
    · exact hb.1
    · show imp.line ≤ (parseLines P ext content 0 _).snd
      rw [hs]
      simpa using hb.2

/-- Witness for C8 on a concrete three-line file with one import on line 2. -/
theorem parse_line_invariants_witness :
    (parseFile goPatterns "ws/a.go" ".go" contentC8).lineCount = 3
  ∧ 1 ≤ (importRef.mk "modx" 2).line
  ∧ (importRef.mk "modx" 2).line ≤ (parseFile goPatterns "ws/a.go" ".go" contentC8).lineCount := by
  have h := parse_line_invariants goPatterns "ws/a.go" ".go" contentC8
  have h2 := h.2 ⟨"modx", 2⟩ (by decide)
  exact ⟨h.1.trans (by decide), h2.1, h2.2⟩

/-! ## Helper lemmas about the Go import pattern -/

theorem dropWhile_append_all {p : Char → Bool} {l m : List Char}
    (h : ∀ c ∈ l, p c = true) :
    (l ++ m).dropWhile p = m.dropWhile p := by
  induction l with
  | nil => simp
  | cons a l ih =>
      simp only [List.cons_append, List.dropWhile_cons, h a (by simp), if_true]
      exact ih (fun c hc => h c (by simp [hc]))

theorem takeWhile_append_stop {p : Char → Bool} {l m : List Char} {b : Char}
    (h : ∀ c ∈ l, p c = true) (hb : p b = false) :
    (l ++ b :: m).takeWhile p = l ∧ (l ++ b :: m).dropWhile p = b :: m := by
  induction l with
  | nil => simp [List.takeWhile_cons, List.dropWhile_cons, hb]
  | cons a l ih =>
      have ha := h a (by simp)
      have ih' := ih (fun c hc => h c (by simp [hc]))
      simp only [List.cons_append, List.takeWhile_cons, List.dropWhile_cons,
        ha, if_true]
      exact ⟨by rw [ih'.1], ih'.2⟩

theorem goImportCore_quoted (pre inner post : List Char)
    (hpre : ∀ c ∈ pre, isSpaceRE c = true)
    (hinner : ∀ c ∈ inner, ¬(c = '"'))
    (hne : inner ≠ []) :
    goImportCore (pre ++ '"' :: (inner ++ '"' :: post)) = some inner := by
  have hq : isSpaceRE '"' = false := rfl
  have hstop := takeWhile_append_stop
    (p := fun c => !(c == '"')) (l := inner) (m := post) (b := '"')
    (fun c hc => by simpa using hinner c hc) (by simp)
  unfold goImportCore
  rw [dropWhile_append_all hpre]
  simp [List.dropWhile_cons, hq, hstop.1, hstop.2, hne]

theorem reGoImportM_quoted (pre inner post : String)
    (hpre : ∀ c ∈ pre.data, isSpaceRE c = true)
    (hinner : ∀ c ∈ inner.data, ¬(c = '"'))
    (hne : inner ≠ "") :
    reGoImportM (pre ++ "\"" ++ inner ++ "\"" ++ post) = some inner := by
  have hdata : (pre ++ "\"" ++ inner ++ "\"" ++ post).data
      = pre.data ++ '"' :: (inner.data ++ '"' :: post.data) := by
    simp [String.data_append]
  have hne' : inner.data ≠ [] := by
    intro hd
    apply hne
    cases inner with
    | mk d => simp at hd; simp [hd]
  unfold reGoImportM
  rw [hdata, goImportCore_quoted pre.data inner.data post.data hpre hinner hne']
  cases inner with
  | mk d => rfl

theorem parseLines_import_mem (P : Patterns) (ext : String) (ls : List String) :
    ∀ (k : Nat) (info : fileInfo) (imp : importRef), imp ∈ info.imports →
    imp ∈ (parseLines P ext ls k info).fst.imports := by
  induction ls with
  | nil => intro k info imp h; simpa [parseLines] using h
  | cons l ls ih =>
      intro k info imp h
      have hstep : imp ∈ (parseStep P ext info (k + 1) l).imports := by
        rcases parseStep_imports P ext info (k + 1) l with he | ⟨m, he⟩ <;>
          rw [he] <;> simp [h]
      simpa [parseLines] using ih (k + 1) _ imp hstep

theorem parseLines_go_import (P : Patterns) (ls : List String) :
    ∀ (i : Nat) (h : i < ls.length) (k : Nat) (info : fileInfo) (m : String),
    P.goImport (ls.get ⟨i, h⟩) = some m →
    importRef.mk m (k + i + 1) ∈ (parseLines P ".go" ls k info).fst.imports := by
  induction ls with
  | nil => intro i h; simp at h
  | cons l ls ih =>
      intro i h k info m hm
      cases i with
      | zero =>
          have hstep : importRef.mk m (k + 1) ∈
              (parseStep P ".go" info (k + 1) l).imports := by
            unfold parseStep
            simp only [List.get] at hm
            simp only [show (".go" == ".go") = true from rfl, if_true, hm]
            split <;> simp
          simpa [parseLines] using
            parseLines_import_mem P ".go" ls (k + 1) _ _ hstep
      | succ i' =>
          have hm' : P.goImport (ls.get ⟨i', by simpa using Nat.lt_of_succ_lt_succ h⟩)
              = some m := by
            simpa [List.get_cons_succ] using hm
          have := ih i' (by simpa using Nat.lt_of_succ_lt_succ h) (k + 1)
            (parseStep P ".go" info (k + 1) l) m hm'
          have harith : k + 1 + i' + 1 = k + (i' + 1) + 1 := by omega
          rw [harith] at this
          simpa [parseLines] using this

/-- C10: the Go parser records an import reference for any line whose first
non-whitespace character begins a (nonempty) double-quoted string, taking the
quoted content as the module token, whether or not the line is part of an
actual import declaration. -/
theorem go_quoted_line_import (path : String) (content : List String)
    (i : Nat) (h : i < content.length) (pre inner post : String)
    (hline : content.get ⟨i, h⟩ = pre ++ "\"" ++ inner ++ "\"" ++ post)
    (hpre : ∀ c ∈ pre.data, isSpaceRE c = true)
    (hinner : ∀ c ∈ inner.data, ¬(c = '"'))
    (hne : inner ≠ "") :
    importRef.mk inner (i + 1) ∈ (parseFile goPatterns path ".go" content).imports := by
  have hm : goPatterns.goImport (content.get ⟨i, h⟩) = some inner := by
    rw [hline]
    exact reGoImportM_quoted pre inner post hpre hinner hne
  have hmem := parseLines_go_import goPatterns content i h 0
    ⟨path, ".go", [], [], 0, 0⟩ inner hm
  show importRef.mk inner (i + 1) ∈
    (parseLines goPatterns ".go" content 0 ⟨path, ".go", [], [], 0, 0⟩).fst.imports
  simpa using hmem

/-- Witness for C10: a quoted string literal at the start of line 2 of a
slice literal is recorded as an import of that line. -/
theorem go_quoted_line_import_witness :
    importRef.mk "not-an-import" 2 ∈
      (parseFile goPatterns "ws/s.go" ".go" contentC10).imports :=
  go_quoted_line_import "ws/s.go" contentC10 1 (by decide) "\t" "not-an-import"
    "," (by decide) (by decide) (by decide) (by decide)

/-! ## Helper lemmas about finding locations -/

theorem checkGodObject_path (fi : fileInfo) (f : Finding)
    (h : f ∈ checkGodObject fi) : f.filePath = fi.path := by
  unfold checkGodObject at h
  split at h
  · simp only [List.mem_singleton] at h
    subst h
    rfl
  · simp at h

theorem checkSecurityMixing_path (P : Patterns) (fi : fileInfo) (f : Finding)
    (h : f ∈ checkSecurityMixing P fi) : f.filePath = fi.path := by
  simp only [checkSecurityMixing] at h
  split at h
  · simp only [List.mem_singleton] at h
    subst h
    rfl
  · simp at h

theorem checkMissingAbstraction_path (P : Patterns) (fi : fileInfo) (f : Finding)
    (h : f ∈ checkMissingAbstraction P fi) : f.filePath = fi.path := by
  unfold checkMissingAbstraction at h
  split at h
  · obtain ⟨i, hi, _, he⟩ := sqlFindings_mem P.sqlInHandler fi.path fi.ext
      fi.lines 1 f h
    rw [he]
    rfl
  · simp at h

theorem checkCircularDeps_path (po : PathOps) (fi : fileInfo)
    (graph : List (String × List String)) (root : String) (f : Finding)
    (h : f ∈ checkCircularDeps po fi graph root) : f.filePath = fi.path := by
  unfold checkCircularDeps at h
  obtain ⟨_, imp, _, _, he⟩ := circLoop_mem po (relOf po root fi.path)
    (po.baseF (po.dirF (relOf po root fi.path))) graph fi.path fi.ext
    fi.imports f h
  rw [he]
  rfl

theorem analyzeAll_mem (po : PathOps) (P : Patterns) (rootPath : String)
    (files : List FileRec) (graph : List (String × List String)) (f : Finding)
    (h : f ∈ analyzeAll po P rootPath files graph) :
    ∃ fr ∈ files, f.filePath = fr.info.path := by
  unfold analyzeAll at h
  rw [List.mem_flatten] at h
  obtain ⟨l, hl, hf⟩ := h
  rw [List.mem_map] at hl
  obtain ⟨fr, hfr, rfl⟩ := hl
  refine ⟨fr, hfr, ?_⟩
  simp only [List.mem_append] at hf
  rcases hf with ((hf | hf) | hf) | hf
  · exact checkCircularDeps_path po fr.info graph rootPath f hf
  · exact checkGodObject_path fr.info f hf
  · exact checkSecurityMixing_path P fr.info f hf
  · exact checkMissingAbstraction_path P fr.info f hf

/-! ## Helper lemmas about the walk -/

theorem parseFile_path (P : Patterns) (path ext : String) (content : List String) :
    (parseFile P path ext content).path = path := by
  show (parseLines P ext content 0 ⟨path, ext, [], [], 0, 0⟩).fst.path = path
  rw [parseLines_path]

theorem fileCB_files_cases (po : PathOps) (P : Patterns)
    (ctx : Nat → Option CtxErr) (rootPath : String) (dirs : List String)
    (path name : String) (content : List String) (readable : Bool)
    (st st1 : ScanState) (r : Option CtxErr)
    (heq : fileCB po P ctx rootPath dirs path name content readable st = (st1, r)) :
    st1.files = st.files ∨
    st1.files = st.files ++ [⟨dirs, parseFile P path (extOf name) content⟩] := by
  rcases hc : ctx st.steps with _ | e
  · simp only [fileCB, hc] at heq
    split at heq
    · cases heq
      simp
    · split at heq
      · cases heq
        simp
      · cases heq
        simp
  · simp only [fileCB, hc] at heq
    cases heq
    simp

theorem buildGraph_snoc (po : PathOps) (rootPath : String)
    (files : List FileRec) (fr : FileRec) :
    buildGraph po rootPath (files ++ [fr]) =
      fr.info.imports.foldl
        (fun g imp => mapAppend g (relOf po rootPath fr.info.path) imp.module)
        (buildGraph po rootPath files) := by
  unfold buildGraph
  rw [List.foldl_append]
  simp

theorem fileCB_graph_inv (po : PathOps) (P : Patterns)
    (ctx : Nat → Option CtxErr) (rootPath : String) (dirs : List String)
    (path name : String) (content : List String) (readable : Bool)
    (st st1 : ScanState) (r : Option CtxErr)
    (heq : fileCB po P ctx rootPath dirs path name content readable st = (st1, r))
    (hinv : st.graph = buildGraph po rootPath st.files) :
    st1.graph = buildGraph po rootPath st1.files := by
  rcases hc : ctx st.steps with _ | e
  · simp only [fileCB, hc] at heq
    split at heq
    · cases heq
      simpa using hinv
    · split at heq
      · cases heq
        simpa using hinv
      · cases heq
        show List.foldl _ st.graph (parseFile P path (extOf name) content).imports =
          buildGraph po rootPath
            (st.files ++ [⟨dirs, parseFile P path (extOf name) content⟩])
        rw [buildGraph_snoc, ← hinv, parseFile_path]
  · simp only [fileCB, hc] at heq
    cases heq
    simpa using hinv

theorem walkL_dirs_inv (po : PathOps) (P : Patterns) (ctx : Nat → Option CtxErr)
    (rootPath : String) (l : FSList) (segs : List String) (st : ScanState) :
    (∀ d ∈ segs, skippedDirs d = false) →
    (∀ fr ∈ st.files, ∀ d ∈ fr.dirs, skippedDirs d = false) →
    ∀ fr ∈ (walkL po P ctx rootPath l segs st).fst.files,
      ∀ d ∈ fr.dirs, skippedDirs d = false := by
  induction l, segs, st using walkL.induct po P ctx rootPath with
  | case1 segs st =>
      intro _ h2
      simpa [walkL] using h2
  | case2 n content readable rest segs st st1 e heq =>
      intro h1 h2
      simp only [walkL, heq]
      intro fr hfr
      rcases fileCB_files_cases po P ctx rootPath segs _ n content readable
        st st1 _ heq with hfe | hfe
      · exact h2 fr (hfe ▸ hfr)
      · rw [hfe] at hfr
        rcases List.mem_append.mp hfr with hold | hnew
        · exact h2 fr hold
        · simp only [List.mem_singleton] at hnew
          subst hnew
          simpa using h1
  | case3 n content readable rest segs st st1 heq ih =>
      intro h1 h2
      simp only [walkL, heq]
      refine ih h1 ?_
      intro fr hfr
      rcases fileCB_files_cases po P ctx rootPath segs _ n content readable
        st st1 _ heq with hfe | hfe
      · exact h2 fr (hfe ▸ hfr)
      · rw [hfe] at hfr
        rcases List.mem_append.mp hfr with hold | hnew
        · exact h2 fr hold
        · simp only [List.mem_singleton] at hnew
          subst hnew
          simpa using h1
  | case4 n es rest segs st c e hc =>
      intro _ h2
      have hc0 : ctx st.steps = some e := hc
      simp only [walkL, hc0]
      simpa using h2
  | case5 n es rest segs st c st1 hc hskip ih =>
      intro h1 h2
      have hc0 : ctx st.steps = none := hc
      simp only [walkL, hc0, hskip, if_true]
      exact ih h1 (by simpa using h2)
  | case6 n es rest segs st c st1 hc hskip st2 e heq ih =>
      intro h1 h2
      have hc0 : ctx st.steps = none := hc
      have hn : skippedDirs n = false := by
        simpa using hskip
      simp only [walkL, hc0, hn, Bool.false_eq_true, if_false, heq]
      have hsub := ih ?_ ?_
      · rw [heq] at hsub
        simpa using hsub
      · intro d hd
        rcases List.mem_append.mp hd with hd | hd
        · exact h1 d hd
        · simp only [List.mem_singleton] at hd
          subst hd
          exact hn
      · simpa using h2
  | case7 n es rest segs st c st1 hc hskip st2 heq ih ih2 =>
      intro h1 h2
      have hc0 : ctx st.steps = none := hc
      have hn : skippedDirs n = false := by
        simpa using hskip
      simp only [walkL, hc0, hn, Bool.false_eq_true, if_false, heq]
      have hsub := ih ?_ ?_
      · rw [heq] at hsub
        refine ih2 h1 ?_
        simpa using hsub
      · intro d hd
        rcases List.mem_append.mp hd with hd | hd
        · exact h1 d hd
        · simp only [List.mem_singleton] at hd
          subst hd
          exact hn
      · simpa using h2

theorem walkL_graph_inv (po : PathOps) (P : Patterns) (ctx : Nat → Option CtxErr)
    (rootPath : String) (l : FSList) (segs : List String) (st : ScanState) :
    st.graph = buildGraph po rootPath st.files →
    (walkL po P ctx rootPath l segs st).fst.graph =
      buildGraph po rootPath (walkL po P ctx rootPath l segs st).fst.files := by
  induction l, segs, st using walkL.induct po P ctx rootPath with
  | case1 segs st =>
      intro h
      simpa [walkL] using h
  | case2 n content readable rest segs st st1 e heq =>
      intro h
      simp only [walkL, heq]
      exact fileCB_graph_inv po P ctx rootPath segs _ n content readable
        st st1 _ heq h
  | case3 n content readable rest segs st st1 heq ih =>
      intro h
      simp only [walkL, heq]
      exact ih (fileCB_graph_inv po P ctx rootPath segs _ n content readable
        st st1 _ heq h)
  | case4 n es rest segs st c e hc =>
      intro h
      have hc0 : ctx st.steps = some e := hc
      simp only [walkL, hc0]
      simpa using h
  | case5 n es rest segs st c st1 hc hskip ih =>
      intro h
      have hc0 : ctx st.steps = none := hc
      simp only [walkL, hc0, hskip, if_true]
      exact ih (by simpa using h)
  | case6 n es rest segs st c st1 hc hskip st2 e heq ih =>
      intro h
      have hc0 : ctx st.steps = none := hc
      have hn : skippedDirs n = false := by
        simpa using hskip
      simp only [walkL, hc0, hn, Bool.false_eq_true, if_false, heq]
      have hsub := ih (by simpa using h)
      rw [heq] at hsub
      simpa using hsub
  | case7 n es rest segs st c st1 hc hskip st2 heq ih ih2 =>
      intro h
      have hc0 : ctx st.steps = none := hc
      have hn : skippedDirs n = false := by
        simpa using hskip
      simp only [walkL, hc0, hn, Bool.false_eq_true, if_false, heq]
      have hsub := ih (by simpa using h)
      rw [heq] at hsub
      exact ih2 (by simpa using hsub)

theorem scanWalk_dirs_inv (po : PathOps) (P : Patterns)
    (ctx : Nat → Option CtxErr) (rootPath : String) (root : Option FSEntry) :
    ∀ fr ∈ (scanWalk po P ctx rootPath root).fst.files,
      ∀ d ∈ fr.dirs, skippedDirs d = false := by
  match root with
  | none => simp [scanWalk, initState]
  | some (.file n content readable) =>
      rcases heq : fileCB po P ctx rootPath [] rootPath n content readable
        initState with ⟨st1, r⟩
      simp only [scanWalk, heq]
      intro fr hfr
      rcases fileCB_files_cases po P ctx rootPath [] rootPath n content readable
        initState st1 r heq with hfe | hfe
      · rw [hfe] at hfr
        simp [initState] at hfr
      · rw [hfe] at hfr
        simp only [initState, List.nil_append, List.mem_singleton] at hfr
        subst hfr
        simp
  | some (.dir n es) =>
      rcases hc : ctx 0 with _ | e
      · have hc0 : ctx initState.steps = none := hc
        simp only [scanWalk, hc0]
        by_cases hskip : skippedDirs n
        · simp [hskip, initState]
        · have hn : skippedDirs n = false := by simpa using hskip
          simp only [hn, Bool.false_eq_true, if_false]
          exact walkL_dirs_inv po P ctx rootPath es [] _ (by simp)
            (by simp [initState])
      · simp [scanWalk, hc, initState]

theorem scanWalk_graph_inv (po : PathOps) (P : Patterns)
    (ctx : Nat → Option CtxErr) (rootPath : String) (root : Option FSEntry) :
    (scanWalk po P ctx rootPath root).fst.graph =
      buildGraph po rootPath (scanWalk po P ctx rootPath root).fst.files := by
  match root with
  | none => simp [scanWalk, initState, buildGraph]
  | some (.file n content readable) =>
      rcases heq : fileCB po P ctx rootPath [] rootPath n content readable
        initState with ⟨st1, r⟩
      simp only [scanWalk, heq]
      exact fileCB_graph_inv po P ctx rootPath [] rootPath n content readable
        initState st1 r heq (by simp [initState, buildGraph])
  | some (.dir n es) =>
      rcases hc : ctx 0 with _ | e
      · have hc0 : ctx initState.steps = none := hc
        simp only [scanWalk, hc0]
        by_cases hskip : skippedDirs n
        · simp [hskip, initState, buildGraph]
        · have hn : skippedDirs n = false := by simpa using hskip
          simp only [hn, Bool.false_eq_true, if_false]
          exact walkL_graph_inv po P ctx rootPath es [] _
            (by simp [initState, buildGraph])
      · simp [scanWalk, hc, initState, buildGraph]

/-- C9: every finding a scan run emits points at a collected file, and no
directory on the path between the workspace root and a collected file has a
name in the skip set (skipped directories are pruned before descent at any
nesting depth, so their files are never parsed or reported). -/
theorem skip_dirs_never_reported (po : PathOps) (P : Patterns)
    (ctx : Nat → Option CtxErr) (rootPath : String) (root : Option FSEntry)
    (f : Finding) (hf : f ∈ scanFindings po P ctx rootPath root) :
    ∃ fr ∈ (scanWalk po P ctx rootPath root).fst.files,
      f.filePath = fr.info.path ∧ ∀ d ∈ fr.dirs, skippedDirs d = false := by
  unfold scanFindings at hf
  obtain ⟨fr, hfr, hpath⟩ := analyzeAll_mem po P rootPath _ _ f hf
  exact ⟨fr, hfr, hpath, scanWalk_dirs_inv po P ctx rootPath root fr hfr⟩

/-- Witness for C9: in a workspace holding a handler file and a vendor copy of
the same file, only the outer file is collected and reported. -/
theorem skip_dirs_never_reported_witness :
    skipF ∈ scanFindings po0 goPatterns (fun _ => none) "ws" (some fsSkip)
  ∧ (scanWalk po0 goPatterns (fun _ => none) "ws" (some fsSkip)).fst.files.length = 1
  ∧ skipF.filePath = "ws/h.go" := by
  refine ⟨by decide, by decide, ?_⟩
  obtain ⟨fr, hmem, hpath, hdirs⟩ := skip_dirs_never_reported po0 goPatterns
    (fun _ => none) "ws" (some fsSkip) skipF (by decide)
  decide

/-! ## Helper lemmas about graph keys -/

theorem hasKey_mapAppend (g : List (String × List String)) (k' v k : String) :
    hasKey (mapAppend g k' v) k = (hasKey g k || k' == k) := by
  induction g with
  | nil => simp [mapAppend, hasKey]
  | cons e rest ih =>
      rcases e with ⟨a, vs⟩
      by_cases ha : a == k'
      · have ha' : a = k' := by simpa using ha
        subst ha'
        simp only [mapAppend, beq_self_eq_true, if_true, hasKey, List.any_cons]
        by_cases hak : a == k <;> simp [hak, hasKey]
      · simp only [mapAppend, ha, Bool.false_eq_true, if_false, hasKey,
          List.any_cons]
        have := ih
        simp only [hasKey] at this
        rw [this]
        by_cases hak : a == k <;> simp [hak, Bool.or_assoc]

theorem hasKey_import_fold (imps : List importRef) (r : String) :
    ∀ (g : List (String × List String)) (k : String),
    hasKey (imps.foldl (fun g imp => mapAppend g r imp.module) g) k =
      (hasKey g k || (!imps.isEmpty && r == k)) := by
  induction imps with
  | nil => intro g k; simp
  | cons i imps ih =>
      intro g k
      simp only [List.foldl_cons, ih, hasKey_mapAppend, List.isEmpty_cons,
        Bool.not_false, Bool.true_and]
      by_cases hrk : r == k <;> by_cases hi : imps.isEmpty <;>
        simp [hrk, hi, Bool.or_assoc]

theorem hasKey_buildGraph_fold (po : PathOps) (rootPath : String)
    (files : List FileRec) : ∀ (g : List (String × List String)) (k : String),
    hasKey (files.foldl
      (fun g fr =>
        fr.info.imports.foldl
          (fun g imp => mapAppend g (relOf po rootPath fr.info.path) imp.module) g)
      g) k =
      (hasKey g k ||
       files.any (fun fr =>
         !fr.info.imports.isEmpty && (relOf po rootPath fr.info.path == k))) := by
  induction files with
  | nil => intro g k; simp
  | cons fr files ih =>
      intro g k
      simp only [List.foldl_cons, ih, hasKey_import_fold, List.any_cons,
        Bool.or_assoc]

theorem hasKey_buildGraph (po : PathOps) (rootPath : String)
    (files : List FileRec) (k : String) :
    hasKey (buildGraph po rootPath files) k =
      files.any (fun fr =>
        !fr.info.imports.isEmpty && (relOf po rootPath fr.info.path == k)) := by
  unfold buildGraph
  rw [hasKey_buildGraph_fold]
  simp [hasKey]

/-- C5 counterexample: a workspace whose single parsed file has no imports
produces an import graph with no entry at all, although the file was parsed,
refuting the claim that the graph contains an entry for every parsed file. -/
theorem import_graph_missing_entry_cex :
    (scanWalk po0 goPatterns (fun _ => none) "ws" (some fsNoImp)).fst.files.length = 1
  ∧ (scanWalk po0 goPatterns (fun _ => none) "ws" (some fsNoImp)).fst.graph = [] := by
  decide

/-- C5 amended: after the walk, the import graph contains an entry keyed by a
file's workspace-relative path exactly when some parsed file with that
relative path has a nonempty extracted import list; files with no imports get
no entry. -/
theorem import_graph_entry_iff (po : PathOps) (P : Patterns)
    (ctx : Nat → Option CtxErr) (rootPath : String) (root : Option FSEntry)
    (k : String) :
    hasKey (scanWalk po P ctx rootPath root).fst.graph k = true ↔
    ∃ fr ∈ (scanWalk po P ctx rootPath root).fst.files,
      relOf po rootPath fr.info.path = k ∧ fr.info.imports ≠ [] := by
  rw [scanWalk_graph_inv, hasKey_buildGraph]
  rw [List.any_eq_true]
  constructor
  · rintro ⟨fr, hmem, hp⟩
    rcases Bool.and_eq_true_iff.mp hp with ⟨h1, h2⟩
    refine ⟨fr, hmem, by simpa using h2, ?_⟩
    simpa using h1
  · rintro ⟨fr, hmem, h2, h1⟩
    refine ⟨fr, hmem, ?_⟩
    rw [Bool.and_eq_true_iff]
    exact ⟨by simpa using h1, by simpa using h2⟩

/-- Witness for the amended C5: the one-import workspace has a graph entry
for the file's relative path. -/
theorem import_graph_entry_iff_witness :
    hasKey (scanWalk po0 goPatterns (fun _ => none) "ws" (some fsOne)).fst.graph
      "a.go" = true :=
  (import_graph_entry_iff po0 goPatterns (fun _ => none) "ws" (some fsOne)
    "a.go").mpr ⟨frImp, by decide, by decide, by decide⟩

/-- C6 counterexample: a nonexistent workspace root yields an empty successful
response, not a run-level failure — the callback swallows the lstat error. -/
theorem missing_root_ok_cex :
    handleScan po0 goPatterns (fun _ => none) "ws" none = Except.ok [] := by
  rfl

/-- C6 amended: when the workspace root path is non-empty but does not exist,
the walk callback swallows the error and the scan returns an empty successful
result instead of a run-level failure. -/
theorem missing_root_empty_success (po : PathOps) (P : Patterns)
    (ctx : Nat → Option CtxErr) (rootPath : String) (h : rootPath ≠ "") :
    handleScan po P ctx rootPath none = Except.ok [] := by
  have hne : (rootPath == "") = false := by
    simpa using h
  simp [handleScan, hne, scanWalk, scanFindings, analyzeAll, initState]

/-- Witness for the amended C6 at a concrete non-empty root path. -/
theorem missing_root_empty_success_witness :
    handleScan po0 goPatterns (fun _ => none) "workspace" none = Except.ok [] :=
  missing_root_empty_success po0 goPatterns (fun _ => none) "workspace"
    (by decide)

/-- C7 counterexample: a context cancelled before any callback runs aborts the
walk with zero files processed, yet the scan returns an empty successful
response rather than a distinguished cancelled error. -/
theorem cancelled_zero_files_ok_cex :
    (scanWalk po0 goPatterns (fun _ => some CtxErr.canceled) "ws" (some fsOne)).fst.files = []
  ∧ (scanWalk po0 goPatterns (fun _ => some CtxErr.canceled) "ws" (some fsOne)).snd =
      some CtxErr.canceled
  ∧ handleScan po0 goPatterns (fun _ => some CtxErr.canceled) "ws" (some fsOne) =
      Except.ok [] := by
  refine ⟨by decide, by decide, ?_⟩
  rfl

/-- C7 amended: a walk aborted by context.Canceled always yields a successful
response holding the findings of whatever was collected before cancellation —
including the empty response when zero files were processed — while a walk
aborted by any other context error (deadline exceeded) is returned as a
run-level failure regardless of how many files were processed. -/
theorem cancelled_walk_partial_success (po : PathOps) (P : Patterns)
    (ctx : Nat → Option CtxErr) (rootPath : String) (root : Option FSEntry)
    (h : rootPath ≠ "") :
    ((scanWalk po P ctx rootPath root).snd = some CtxErr.canceled →
      handleScan po P ctx rootPath root =
        Except.ok (scanFindings po P ctx rootPath root))
  ∧ ((scanWalk po P ctx rootPath root).snd = some CtxErr.deadlineExceeded →
      handleScan po P ctx rootPath root = Except.error CtxErr.deadlineExceeded) := by
  have hne : (rootPath == "") = false := by
    simpa using h
  constructor
  · intro hw
    simp [handleScan, hne, hw]
  · intro hw
    simp [handleScan, hne, hw]

/-- Witness for the amended C7: a cancelled walk over a nonempty workspace
returns success, and a deadline-exceeded walk over the same workspace returns
a run-level failure. -/
theorem cancelled_walk_partial_success_witness :
    handleScan po0 goPatterns (fun _ => some CtxErr.canceled) "ws" (some fsOne) =
      Except.ok (scanFindings po0 goPatterns (fun _ => some CtxErr.canceled) "ws"
        (some fsOne))
  ∧ handleScan po0 goPatterns (fun _ => some CtxErr.deadlineExceeded) "ws"
      (some fsOne) = Except.error CtxErr.deadlineExceeded :=
  ⟨(cancelled_walk_partial_success po0 goPatterns
      (fun _ => some CtxErr.canceled) "ws" (some fsOne) (by decide)).1 (by decide),
   (cancelled_walk_partial_success po0 goPatterns
      (fun _ => some CtxErr.deadlineExceeded) "ws" (some fsOne) (by decide)).2
      (by decide)⟩
